import Mathlib

/-!
# Verification of the dice-roll parser and evaluator

A shallow embedding of `dice-roll.py`: the notation parser
(`get_count`, `get_die_type`, `get_operation`, `get_operand`,
`process_dice`), the evaluator (`roll`, aggregation and the
post-aggregation adjustment of `roll_main`), and the harness outcome of
`roll_main` itself.  Strings are embedded as `List Char` (all inputs of
interest are ASCII, where Python's `str.isnumeric` agrees with
`Char.isDigit`); Python's unbounded integers are `Nat`/`Int`; a raised
`ValueError` is `Option.none`; the random source is a stream
`Nat → Nat` of raw values, and `random.randint lo hi` reduces the
stream value into the inclusive range, failing when the range is empty.
-/

namespace DiceRollPy

/-- The `RollOperation` enum of the source. -/
inductive RollOperation where
  | ADD
  | SUB
  | INDV_ADD
  | INDV_SUB
  | NO_OPERATION
  deriving DecidableEq, Repr

/-- The `DiceRoll` dataclass of the source. -/
structure DiceRoll where
  count : Nat
  die_type : Nat
  operation : RollOperation
  operand : Nat
  deriving DecidableEq, Repr

/-- Python's `str.split(sep)` for a one-character separator: the list of
chunks between occurrences of `sep` (always non-empty; an input with no
separator yields a single chunk). -/
def splitOnChar (sep : Char) : List Char → List (List Char)
  | [] => [[]]
  | c :: rest =>
    match splitOnChar sep rest with
    | [] => [[]]
    | h :: t => if c = sep then [] :: h :: t else (c :: h) :: t

/-- The value of a digit string read left to right, as Python's `int`
computes it on an all-digit string (and as the accumulator loop of
`get_die_type` computes it). -/
def digitsToNat (s : List Char) : Nat :=
  s.foldl (fun a c => a * 10 + (c.toNat - 48)) 0

/-- Python's `str.isnumeric` on ASCII input: non-empty and all digits. -/
def isNumericStr (s : List Char) : Bool :=
  !s.isEmpty && s.all Char.isDigit

/-- `get_count`: split the input on `'d'`; succeed iff there are exactly
two chunks and the first is numeric, returning its value and the second
chunk. -/
def get_count (dice : List Char) : Option (Nat × List Char) :=
  match splitOnChar 'd' dice with
  | [a, b] => if isNumericStr a then some (digitsToNat a, b) else none
  | _ => none

/-- `get_die_type`: consume the maximal run of leading digits as the die
type; fail when the run is empty. -/
def get_die_type (dice : List Char) : Option (Nat × List Char) :=
  let run := dice.takeWhile Char.isDigit
  if run.isEmpty then none
  else some (digitsToNat run, dice.dropWhile Char.isDigit)

/-- `get_operation`: read the modifier sign, if any, off the front of the
remaining suffix. -/
def get_operation (dice : List Char) : Option (RollOperation × List Char) :=
  match dice with
  | [] => some (.NO_OPERATION, [])
  | '+' :: rest => some (.ADD, rest)
  | '-' :: rest => some (.SUB, rest)
  | '.' :: rest =>
    match rest with
    | '+' :: r => some (.INDV_ADD, r)
    | '-' :: r => some (.INDV_SUB, r)
    | _ => none
  | _ => none

/-- `get_operand`: an empty string defaults to `0`; a non-empty string
must be numeric. -/
def get_operand (dice : List Char) : Option Nat :=
  if dice.isEmpty then some 0
  else if dice.all Char.isDigit then some (digitsToNat dice) else none

/-- `process_dice`: the parser's public boundary; any internal failure
collapses to `none`. -/
def process_dice (dice : List Char) : Option DiceRoll := do
  let (count, d1) ← get_count dice
  let (die_type, d2) ← get_die_type d1
  let (op, d3) ← get_operation d2
  let operand ← get_operand d3
  return { count := count, die_type := die_type, operation := op,
           operand := operand }

/-- `random.randint lo hi`: a uniform draw in the inclusive range
`[lo, hi]`, taken from the raw stream value `r`; raises (returns `none`)
when the range is empty. -/
def randint (lo hi : Int) (r : Nat) : Option Int :=
  if hi < lo then none
  else some (lo + (r : Int) % (hi - lo + 1))

/-- The list comprehension of `roll`, drawing dice `i, i+1, …` until `k`
dice have been drawn; a failing draw aborts the whole comprehension. -/
def rollAux (die_type : Nat) (op : Int → Int) (rng : Nat → Nat) :
    Nat → Nat → Option (List Int)
  | _, 0 => some []
  | i, k + 1 => do
    let v ← randint 1 die_type (rng i)
    let rest ← rollAux die_type op rng (i + 1) k
    return op v :: rest

/-- `roll`: `num` sequential draws in `[1, die_type]`, each passed
through the per-die operation `op`. -/
def roll (num die_type : Nat) (op : Int → Int) (rng : Nat → Nat) :
    Option (List Int) :=
  rollAux die_type op rng 0 num

/-- The per-die transform `roll_main` passes to `roll` for each
operation. -/
def dieOp (op : RollOperation) (operand : Nat) : Int → Int :=
  match op with
  | .INDV_ADD => fun x => x + operand
  | .INDV_SUB => fun x => x - operand
  | _ => fun x => x

/-- The aggregation step of `roll_main`: `--max` wins, then `--min`,
then sum; `max`/`min` of an empty list raises (returns `none`). -/
def aggregate (use_max use_min : Bool) (l : List Int) : Option Int :=
  if use_max then l.max?
  else if use_min then l.min?
  else some l.sum

/-- The post-aggregation adjustment of `roll_main`. -/
def post_adjust (op : RollOperation) (operand : Nat) (r : Int) : Int :=
  match op with
  | .ADD => r + operand
  | .SUB => r - operand
  | _ => r

/-- The evaluator half of `roll_main` (lines 144–161): roll the dice
with the per-die transform, aggregate, then apply the post-aggregation
adjustment; `none` when a draw or the aggregation raises. -/
def evaluate (dr : DiceRoll) (use_max use_min : Bool) (rng : Nat → Nat) :
    Option (List Int × Int) := do
  let results ← roll dr.count dr.die_type (dieOp dr.operation dr.operand) rng
  let agg ← aggregate use_max use_min results
  return (results, post_adjust dr.operation dr.operand agg)

/-- The observable outcome of one `roll_main` invocation. -/
inductive MainResult where
  /-- Parse failure: the invalid-format error is printed and nothing
  else happens. -/
  | invalidFormat
  /-- An unhandled exception escaped (empty `randint` range, or
  `max`/`min` of an empty sequence); the flag records whether the
  count-positivity error was printed first. -/
  | uncaughtError (countWarning : Bool)
  /-- Normal completion: the flag records whether the count-positivity
  error was printed, then the per-die results and final aggregate. -/
  | ok (countWarning : Bool) (results : List Int) (result : Int)
  deriving DecidableEq, Repr

/-- `roll_main`: parse, warn (but do not halt) on a non-positive count,
evaluate, and report. -/
def roll_main (dice : List Char) (use_max use_min : Bool)
    (rng : Nat → Nat) : MainResult :=
  match process_dice dice with
  | none => .invalidFormat
  | some dr =>
    let warn := decide (dr.count = 0)
    match evaluate dr use_max use_min rng with
    | none => .uncaughtError warn
    | some (results, result) => .ok warn results result

/-- The decimal rendering of a natural number, as Python's `f"{n}"`
produces it (most significant digit first, no leading zeros, `0` → "0"). -/
def natDigits (n : Nat) : List Char :=
  if n < 10 then [Char.ofNat (n + 48)]
  else natDigits (n / 10) ++ [Char.ofNat (n % 10 + 48)]
termination_by n
decreasing_by exact Nat.div_lt_self (by omega) (by omega)

end DiceRollPy

namespace DiceRollPy

theorem digitChar_isDigit {n : Nat} (h : n < 10) :
    (Char.ofNat (n + 48)).isDigit = true := by
  interval_cases n <;> decide

theorem digitChar_toNat {n : Nat} (h : n < 10) :
    (Char.ofNat (n + 48)).toNat = n + 48 := by
  interval_cases n <;> decide

theorem digitChar_ne_d {n : Nat} (h : n < 10) : Char.ofNat (n + 48) ≠ 'd' := by
  interval_cases n <;> decide

theorem digitsToNat_append_singleton (xs : List Char) (c : Char) :
    digitsToNat (xs ++ [c]) = digitsToNat xs * 10 + (c.toNat - 48) := by
  simp [digitsToNat, List.foldl_append]

theorem natDigits_all_digit (n : Nat) :
    ∀ c ∈ natDigits n, c.isDigit = true := by
  induction n using Nat.strong_induction_on with
  | _ n ih =>
    rw [natDigits]
    split
    · intro c hc
      rw [List.mem_singleton] at hc
      subst hc
      exact digitChar_isDigit (by omega)
    · intro c hc
      rcases List.mem_append.1 hc with h | h
      · exact ih (n / 10) (Nat.div_lt_self (by omega) (by omega)) c h
      · rw [List.mem_singleton] at h
        subst h
        exact digitChar_isDigit (Nat.mod_lt _ (by omega))

theorem natDigits_ne_nil (n : Nat) : natDigits n ≠ [] := by
  rw [natDigits]
  split <;> simp

theorem natDigits_not_mem_d (n : Nat) : 'd' ∉ natDigits n := by
  intro h
  have := natDigits_all_digit n 'd' h
  simp [Char.isDigit] at this

theorem digitsToNat_natDigits (n : Nat) : digitsToNat (natDigits n) = n := by
  induction n using Nat.strong_induction_on with
  | _ n ih =>
    rw [natDigits]
    split
    · rename_i h
      simp [digitsToNat, digitChar_toNat h]
    · rename_i h
      rw [digitsToNat_append_singleton,
        ih (n / 10) (Nat.div_lt_self (by omega) (by omega)),
        digitChar_toNat (Nat.mod_lt _ (by omega))]
      omega

theorem splitOnChar_not_mem {sep : Char} {s : List Char} (h : sep ∉ s) :
    splitOnChar sep s = [s] := by
  induction s with
  | nil => rfl
  | cons c rest ih =>
    rw [List.mem_cons, not_or] at h
    rw [splitOnChar, ih h.2]
    dsimp only
    rw [if_neg (fun hc : c = sep => h.1 hc.symm)]

theorem splitOnChar_ne_nil (sep : Char) (s : List Char) :
    splitOnChar sep s ≠ [] := by
  cases s with
  | nil => simp [splitOnChar]
  | cons c rest =>
    rw [splitOnChar]
    split
    · simp
    · split <;> simp

theorem splitOnChar_append {sep : Char} {a b : List Char} (h : sep ∉ a) :
    splitOnChar sep (a ++ sep :: b) = a :: splitOnChar sep b := by
  induction a with
  | nil =>
    rw [List.nil_append, splitOnChar]
    rcases hb : splitOnChar sep b with _ | ⟨h1, t1⟩
    · exact absurd hb (splitOnChar_ne_nil sep b)
    · simp
  | cons c rest ih =>
    rw [List.mem_cons, not_or] at h
    rw [List.cons_append, splitOnChar, ih h.2]
    dsimp only
    rw [if_neg (fun hc : c = sep => h.1 hc.symm)]

theorem takeWhile_all {p : Char → Bool} {s : List Char}
    (h : ∀ c ∈ s, p c = true) : s.takeWhile p = s := by
  induction s with
  | nil => rfl
  | cons c rest ih =>
    rw [List.takeWhile_cons, h c (List.mem_cons_self _ _),
      if_pos rfl, ih fun x hx => h x (List.mem_cons_of_mem _ hx)]

theorem dropWhile_all {p : Char → Bool} {s : List Char}
    (h : ∀ c ∈ s, p c = true) : s.dropWhile p = [] := by
  induction s with
  | nil => rfl
  | cons c rest ih =>
    rw [List.dropWhile_cons, h c (List.mem_cons_self _ _)]
    exact ih fun x hx => h x (List.mem_cons_of_mem _ hx)

theorem randint_of_le {d : Nat} (hd : 1 ≤ d) (r : Nat) :
    randint 1 d r = some (1 + (r : Int) % d) := by
  rw [randint, if_neg (by omega)]
  norm_num

theorem randint_empty_range (r : Nat) : randint 1 0 r = none := by
  rw [randint, if_pos (by norm_num)]

theorem rollAux_eq {d : Nat} (hd : 1 ≤ d) (op : Int → Int)
    (rng : Nat → Nat) :
    ∀ k i, rollAux d op rng i k =
      some ((List.range k).map fun j => op (1 + (rng (i + j) : Int) % d)) := by
  intro k
  induction k with
  | zero => intro i; rfl
  | succ k ih =>
    intro i
    rw [rollAux]
    simp only [randint_of_le hd, ih (i + 1), Option.bind_eq_bind,
      Option.some_bind, Option.pure_def]
    rw [List.range_succ_eq_map, List.map_cons, List.map_map]
    simp only [Nat.add_zero, Option.some.injEq, List.cons.injEq, true_and]
    refine List.map_congr_left fun j _ => ?_
    simp only [Function.comp_apply]
    have hij : i + 1 + j = i + j.succ := by omega
    rw [hij]

theorem rollAux_die_zero (op : Int → Int) (rng : Nat → Nat) (k i : Nat) :
    rollAux 0 op rng i (k + 1) = none := by
  rw [rollAux]
  simp [randint_empty_range]

theorem max?_spec {l : List Int} (h : l ≠ []) :
    ∃ m, l.max? = some m ∧ m ∈ l ∧ ∀ x ∈ l, x ≤ m := by
  cases hm : l.max? with
  | none => exact absurd (List.max?_eq_none_iff.mp hm) h
  | some m =>
    refine ⟨m, rfl, List.max?_mem (fun a b => max_choice a b) hm, ?_⟩
    exact (List.max?_le_iff (fun _ _ _ => max_le_iff) hm).mp le_rfl

theorem min?_spec {l : List Int} (h : l ≠ []) :
    ∃ m, l.min? = some m ∧ m ∈ l ∧ ∀ x ∈ l, m ≤ x := by
  cases hm : l.min? with
  | none => exact absurd (List.min?_eq_none_iff.mp hm) h
  | some m =>
    refine ⟨m, rfl, List.min?_mem (fun a b => min_choice a b) hm, ?_⟩
    exact (List.le_min?_iff (fun _ _ _ => le_min_iff) hm).mp le_rfl

theorem get_count_append {a rest : List Char} (ha : isNumericStr a = true)
    (hda : 'd' ∉ a) (hdr : 'd' ∉ rest) :
    get_count (a ++ 'd' :: rest) = some (digitsToNat a, rest) := by
  rw [get_count, splitOnChar_append hda, splitOnChar_not_mem hdr]
  simp [ha]

theorem get_die_type_all_digits {s : List Char} (hne : s ≠ [])
    (hdig : ∀ c ∈ s, c.isDigit = true) :
    get_die_type s = some (digitsToNat s, []) := by
  simp [get_die_type, takeWhile_all hdig, dropWhile_all hdig,
    List.isEmpty_iff, hne]

theorem isNumericStr_natDigits (n : Nat) : isNumericStr (natDigits n) = true := by
  simp [isNumericStr, List.isEmpty_iff, natDigits_ne_nil, List.all_eq_true]
  exact natDigits_all_digit n

theorem evaluate_agg_of_post_id {dr : DiceRoll}
    (hpost : ∀ r, post_adjust dr.operation dr.operand r = r)
    (um un : Bool) (rng : Nat → Nat) :
    ∀ res agg, evaluate dr um un rng = some (res, agg) →
      aggregate um un res = some agg := by
  intro res agg hev
  rw [evaluate] at hev
  rcases hroll : roll dr.count dr.die_type (dieOp dr.operation dr.operand) rng
    with _ | res'
  · rw [hroll] at hev
    simp at hev
  · rw [hroll] at hev
    simp only [Option.bind_eq_bind, Option.some_bind] at hev
    rcases hagg : aggregate um un res' with _ | agg'
    · rw [hagg] at hev
      simp at hev
    · rw [hagg] at hev
      simp only [Option.some_bind, Option.pure_def, Option.some.injEq,
        Prod.mk.injEq] at hev
      obtain ⟨rfl, rfl⟩ := hev
      rw [hagg, hpost]

/-- C1, counterexample: the claim asserts that a modifier sign must be
followed by a non-empty operand string, so that `parse "3d6+"` fails; in
the code `get_operand` happily defaults an empty operand string to `0`,
and `"3d6+"` parses successfully with operation Add and operand 0. -/
theorem C1_counterexample :
    process_dice "3d6+".toList =
      some ⟨3, 6, RollOperation.ADD, 0⟩ := by
  rfl

/-- C1, amended: for every input string, whatever modifier sign (if
any) the parser consumed — so for every operation, not only None — the
parse succeeds with operand 0 when the operand string `r` left after
the sign is empty, succeeds with the value of `r` when `r` is all
digits, and fails otherwise.  In addition, each of the four modifier
signs accepts an empty operand concretely: `"3d6+"`, `"3d6-"`,
`"3d6.+"` and `"3d6.-"` all parse with operand 0. -/
theorem C1_empty_operand_amended (s rest1 rest2 r : List Char)
    (c d : Nat) (op : RollOperation)
    (h1 : get_count s = some (c, rest1))
    (h2 : get_die_type rest1 = some (d, rest2))
    (h3 : get_operation rest2 = some (op, r)) :
    (process_dice s =
      (if r.isEmpty then some ⟨c, d, op, 0⟩
       else if r.all Char.isDigit then some ⟨c, d, op, digitsToNat r⟩
       else none)) ∧
    process_dice "3d6+".toList = some ⟨3, 6, RollOperation.ADD, 0⟩ ∧
    process_dice "3d6-".toList = some ⟨3, 6, RollOperation.SUB, 0⟩ ∧
    process_dice "3d6.+".toList =
      some ⟨3, 6, RollOperation.INDV_ADD, 0⟩ ∧
    process_dice "3d6.-".toList =
      some ⟨3, 6, RollOperation.INDV_SUB, 0⟩ := by
  refine ⟨?_, rfl, rfl, rfl, rfl⟩
  simp only [process_dice, h1, h2, h3, Option.bind_eq_bind,
    Option.some_bind, get_operand]
  rcases hre : r.isEmpty with _ | _
  · simp only [Bool.false_eq_true, if_false]
    rcases hall : r.all Char.isDigit with _ | _ <;> simp
  · simp

/-- C1, witness for the amended theorem at the input `"3d6.-5"`
(operation SubtractEach, operand string `"5"`). -/
theorem C1_empty_operand_amended_witness :
    (process_dice "3d6.-5".toList =
      (if "5".toList.isEmpty then
         some ⟨3, 6, RollOperation.INDV_SUB, 0⟩
       else if "5".toList.all Char.isDigit then
         some ⟨3, 6, RollOperation.INDV_SUB, digitsToNat "5".toList⟩
       else none)) ∧
    process_dice "3d6+".toList = some ⟨3, 6, RollOperation.ADD, 0⟩ ∧
    process_dice "3d6-".toList = some ⟨3, 6, RollOperation.SUB, 0⟩ ∧
    process_dice "3d6.+".toList =
      some ⟨3, 6, RollOperation.INDV_ADD, 0⟩ ∧
    process_dice "3d6.-".toList =
      some ⟨3, 6, RollOperation.INDV_SUB, 0⟩ :=
  C1_empty_operand_amended "3d6.-5".toList "6.-5".toList ".-5".toList
    "5".toList 3 6 RollOperation.INDV_SUB rfl rfl rfl

/-- C2: on any successfully parsed spec with `count = 0`, the harness
prints the count-positivity error (the `true` flag) but still invokes
the evaluator: the per-die result sequence is empty, the Sum aggregate
is 0 (so the reported result is just the post-aggregation adjustment of
0), and Max/Min aggregation is the error branch (an unhandled
exception), having no element to select. -/
theorem C2_count_zero_behaviour (s : List Char) (dr : DiceRoll)
    (rng : Nat → Nat) (h : process_dice s = some dr) (hc : dr.count = 0) :
    roll_main s false false rng =
      .ok true [] (post_adjust dr.operation dr.operand 0) ∧
    (∀ un, roll_main s true un rng = .uncaughtError true) ∧
    roll_main s false true rng = .uncaughtError true := by
  have hroll : roll 0 dr.die_type (dieOp dr.operation dr.operand) rng =
      some [] := rfl
  refine ⟨?_, fun un => ?_, ?_⟩ <;>
    simp [roll_main, h, hc, evaluate, hroll, aggregate]

/-- C2, witness at the input `"0d6"`. -/
theorem C2_count_zero_behaviour_witness :
    roll_main "0d6".toList false false (fun _ => 0) =
      .ok true [] (post_adjust RollOperation.NO_OPERATION 0 0) ∧
    (∀ un, roll_main "0d6".toList true un (fun _ => 0) =
      .uncaughtError true) ∧
    roll_main "0d6".toList false true (fun _ => 0) = .uncaughtError true :=
  C2_count_zero_behaviour "0d6".toList ⟨0, 6, RollOperation.NO_OPERATION, 0⟩
    (fun _ => 0) rfl rfl

/-- C3: `"3d0"` parses successfully with dieType 0 (no positivity check
anywhere), and any parsed spec with `count ≥ 1` and `dieType = 0` makes
the evaluator attempt a uniform draw on the empty range `[1, 0]`, so
`roll_main` ends in the unhandled-error outcome (with no count warning),
not in a reported parse or validation error. -/
theorem C3_die_type_zero (s : List Char) (dr : DiceRoll) (rng : Nat → Nat)
    (um un : Bool) (h : process_dice s = some dr) (hc : 1 ≤ dr.count)
    (hd : dr.die_type = 0) :
    process_dice "3d0".toList =
      some ⟨3, 0, RollOperation.NO_OPERATION, 0⟩ ∧
    roll_main s um un rng = .uncaughtError false := by
  refine ⟨rfl, ?_⟩
  obtain ⟨k, hk⟩ : ∃ k, dr.count = k + 1 := ⟨dr.count - 1, by omega⟩
  have hroll : roll dr.count dr.die_type (dieOp dr.operation dr.operand) rng =
      none := by
    rw [hk, hd, roll]
    exact rollAux_die_zero _ _ _ _
  have hc0 : ¬dr.count = 0 := by omega
  simp [roll_main, h, evaluate, hroll, hc0]

/-- C3, witness at the input `"3d0"`. -/
theorem C3_die_type_zero_witness :
    process_dice "3d0".toList =
      some ⟨3, 0, RollOperation.NO_OPERATION, 0⟩ ∧
    roll_main "3d0".toList false false (fun _ => 0) =
      .uncaughtError false :=
  C3_die_type_zero "3d0".toList ⟨3, 0, RollOperation.NO_OPERATION, 0⟩
    (fun _ => 0) false false rfl (by decide) rfl

/-- C4: on any non-empty per-die result sequence the selectors obey
Max over Min over Sum: with `--max` set (whatever `--min` is) the
aggregate is the maximum element, with only `--min` set it is the
minimum element, and with neither it is the arithmetic sum. -/
theorem C4_aggregation_precedence (l : List Int) (b : Bool) (hne : l ≠ []) :
    (∃ m, aggregate true b l = some m ∧ m ∈ l ∧ ∀ x ∈ l, x ≤ m) ∧
    (∃ m, aggregate false true l = some m ∧ m ∈ l ∧ ∀ x ∈ l, m ≤ x) ∧
    aggregate false false l = some l.sum := by
  obtain ⟨mx, hmx, hmxm, hub⟩ := max?_spec hne
  obtain ⟨mn, hmn, hmnm, hlb⟩ := min?_spec hne
  exact ⟨⟨mx, by simp [aggregate, hmx], hmxm, hub⟩,
    ⟨mn, by simp [aggregate, hmn], hmnm, hlb⟩, by simp [aggregate]⟩

/-- C4, witness on the sequence `[2, 5, 1]` with both selectors set. -/
theorem C4_aggregation_precedence_witness :
    (∃ m, aggregate true true [2, 5, 1] = some m ∧
      m ∈ ([2, 5, 1] : List Int) ∧ ∀ x ∈ ([2, 5, 1] : List Int), x ≤ m) ∧
    (∃ m, aggregate false true [2, 5, 1] = some m ∧
      m ∈ ([2, 5, 1] : List Int) ∧ ∀ x ∈ ([2, 5, 1] : List Int), m ≤ x) ∧
    aggregate false false [2, 5, 1] = some ([2, 5, 1] : List Int).sum :=
  C4_aggregation_precedence [2, 5, 1] true (by decide)

/-- C5: `"4d6.+1"` (operation AddEach, operand 1) with a random source
whose draws are `[2, 5, 1, 6]` reports individual results
`[3, 6, 2, 7]` — the per-die transform is applied before aggregation
and the transformed values are reported — and a Sum aggregate of 18. -/
theorem C5_add_each_concrete :
    roll_main "4d6.+1".toList false false (fun i => [1, 4, 0, 5].getD i 0) =
      .ok false [3, 6, 2, 7] 18 := by
  rfl

/-- C6: in any aggregation mode and for any random source, a spec whose
operation is Add with operand k evaluates to the same per-die results as
the identical spec with operation None and an aggregate shifted by
exactly +k; Subtract shifts by −k; and for None, AddEach and
SubtractEach the reported aggregate is exactly the aggregation of the
reported per-die results, with no post-aggregation adjustment. -/
theorem C6_post_aggregation_shift (dr : DiceRoll) (um un : Bool)
    (rng : Nat → Nat) :
    (dr.operation = RollOperation.ADD →
      evaluate dr um un rng =
        (evaluate { dr with operation := RollOperation.NO_OPERATION }
          um un rng).map (fun p => (p.1, p.2 + (dr.operand : Int)))) ∧
    (dr.operation = RollOperation.SUB →
      evaluate dr um un rng =
        (evaluate { dr with operation := RollOperation.NO_OPERATION }
          um un rng).map (fun p => (p.1, p.2 - (dr.operand : Int)))) ∧
    ((dr.operation = RollOperation.NO_OPERATION ∨
        dr.operation = RollOperation.INDV_ADD ∨
        dr.operation = RollOperation.INDV_SUB) →
      ∀ res agg, evaluate dr um un rng = some (res, agg) →
        aggregate um un res = some agg) := by
  obtain ⟨c, d, op, k⟩ := dr
  refine ⟨?_, ?_, ?_⟩
  · rintro rfl
    rcases hroll : roll c d (fun x => x) rng with _ | res
    · simp [evaluate, dieOp, hroll]
    · rcases hagg : aggregate um un res with _ | agg
      · simp [evaluate, dieOp, hroll, hagg]
      · simp [evaluate, dieOp, hroll, hagg, post_adjust]
  · rintro rfl
    rcases hroll : roll c d (fun x => x) rng with _ | res
    · simp [evaluate, dieOp, hroll]
    · rcases hagg : aggregate um un res with _ | agg
      · simp [evaluate, dieOp, hroll, hagg]
      · simp [evaluate, dieOp, hroll, hagg, post_adjust]
  · rintro (rfl | rfl | rfl) <;>
    · apply evaluate_agg_of_post_id
      intro r
      rfl

/-- C6, witness: a 2-die d6 spec with operation Add, operand 3, in Sum
mode with an all-zero random source. -/
theorem C6_post_aggregation_shift_witness :
    evaluate ⟨2, 6, RollOperation.ADD, 3⟩ false false (fun _ => 0) =
      (evaluate ⟨2, 6, RollOperation.NO_OPERATION, 3⟩ false false
        (fun _ => 0)).map (fun p => (p.1, p.2 + (3 : Int))) :=
  (C6_post_aggregation_shift ⟨2, 6, RollOperation.ADD, 3⟩ false false
    (fun _ => 0)).1 rfl

/-- C7: for any successfully parsed spec with `dieType ≥ 1`, any per-die
transform and any random source, the evaluator produces exactly `count`
individual results in draw order; the underlying raw draws (the results
under the identity transform) each lie in `[1, dieType]`, and the
reported results are exactly those raw draws passed through the
transform. -/
theorem C7_roll_shape (s : List Char) (dr : DiceRoll)
    (_h : process_dice s = some dr) (hd : 1 ≤ dr.die_type)
    (op : Int → Int) (rng : Nat → Nat) :
    ∃ raw : List Int,
      roll dr.count dr.die_type (fun x => x) rng = some raw ∧
      raw.length = dr.count ∧
      (∀ x ∈ raw, 1 ≤ x ∧ x ≤ (dr.die_type : Int)) ∧
      roll dr.count dr.die_type op rng = some (raw.map op) := by
  refine ⟨(List.range dr.count).map
    fun j => 1 + (rng j : Int) % dr.die_type, ?_, ?_, ?_, ?_⟩
  · rw [roll, rollAux_eq hd (fun x => x) rng dr.count 0]
    simp
  · simp
  · intro x hx
    simp only [List.mem_map, List.mem_range] at hx
    obtain ⟨j, _, rfl⟩ := hx
    have hne : (dr.die_type : Int) ≠ 0 := by omega
    have hpos : (0 : Int) < dr.die_type := by omega
    have h0 := Int.emod_nonneg (rng j : Int) hne
    have h1 := Int.emod_lt_of_pos (rng j : Int) hpos
    omega
  · rw [roll, rollAux_eq hd op rng dr.count 0]
    simp [List.map_map, Function.comp_def]

/-- C7, witness at the parsed spec of `"2d6"`, identity transform,
all-zero random source. -/
theorem C7_roll_shape_witness :
    ∃ raw : List Int,
      roll (2 : Nat) (6 : Nat) (fun x => x) (fun _ => 0) = some raw ∧
      raw.length = 2 ∧
      (∀ x ∈ raw, 1 ≤ x ∧ x ≤ ((6 : Nat) : Int)) ∧
      roll (2 : Nat) (6 : Nat) (fun x => x) (fun _ => 0) =
        some (raw.map fun x => x) :=
  C7_roll_shape "2d6".toList ⟨2, 6, RollOperation.NO_OPERATION, 0⟩ rfl
    (by decide) (fun x => x) (fun _ => 0)

/-- C8: for every pair of positive integers, the string
`digits(count) ++ "d" ++ digits(dieType)` parses to exactly that count
and dieType with operation None and operand 0; and `"0d6"` also parses
successfully (the parser does not validate positivity). -/
theorem C8_format_roundtrip (count die_type : Nat) (_hc : 0 < count)
    (_hd : 0 < die_type) :
    process_dice (natDigits count ++ 'd' :: natDigits die_type) =
      some ⟨count, die_type, RollOperation.NO_OPERATION, 0⟩ ∧
    process_dice "0d6".toList =
      some ⟨0, 6, RollOperation.NO_OPERATION, 0⟩ := by
  refine ⟨?_, rfl⟩
  have h1 : get_count (natDigits count ++ 'd' :: natDigits die_type) =
      some (count, natDigits die_type) := by
    rw [get_count_append (isNumericStr_natDigits count)
      (natDigits_not_mem_d count) (natDigits_not_mem_d die_type),
      digitsToNat_natDigits]
  have h2 : get_die_type (natDigits die_type) = some (die_type, []) := by
    rw [get_die_type_all_digits (natDigits_ne_nil _)
      (natDigits_all_digit _), digitsToNat_natDigits]
  simp [process_dice, h1, h2, get_operation, get_operand]

/-- C8, witness at `count = 3`, `dieType = 6`. -/
theorem C8_format_roundtrip_witness :
    process_dice (natDigits 3 ++ 'd' :: natDigits 6) =
      some ⟨3, 6, RollOperation.NO_OPERATION, 0⟩ ∧
    process_dice "0d6".toList =
      some ⟨0, 6, RollOperation.NO_OPERATION, 0⟩ :=
  C8_format_roundtrip 3 6 (by decide) (by decide)

/-- C9: each of the inputs `""`, `"d6"`, `"3d"`, `"3x6"`, `"3d6."` and
`"3d6.x2"` fails to parse, and every failure is the same single
undifferentiated outcome `none` — no partial result, no reason code. -/
theorem C9_parse_failures :
    process_dice "".toList = none ∧
    process_dice "d6".toList = none ∧
    process_dice "3d".toList = none ∧
    process_dice "3x6".toList = none ∧
    process_dice "3d6.".toList = none ∧
    process_dice "3d6.x2".toList = none :=
  ⟨rfl, rfl, rfl, rfl, rfl, rfl⟩

/-- C10: every successfully parsed spec has non-negative count, dieType
and operand (a minus sign in the count or operand position makes the
parse fail), and zero is reachable for all three fields at once
(`"0d0.+0"`). -/
theorem C10_nonnegative_fields (s : List Char) (dr : DiceRoll)
    (_h : process_dice s = some dr) :
    0 ≤ (dr.count : Int) ∧ 0 ≤ (dr.die_type : Int) ∧
    0 ≤ (dr.operand : Int) ∧
    process_dice "-3d6".toList = none ∧
    process_dice "3d6+-2".toList = none ∧
    process_dice "0d0.+0".toList =
      some ⟨0, 0, RollOperation.INDV_ADD, 0⟩ :=
  ⟨Int.natCast_nonneg _, Int.natCast_nonneg _, Int.natCast_nonneg _,
    rfl, rfl, rfl⟩

/-- C10, witness at the parsed spec of `"3d6"`. -/
theorem C10_nonnegative_fields_witness :
    0 ≤ (((⟨3, 6, RollOperation.NO_OPERATION, 0⟩ : DiceRoll).count :
      Int)) ∧
    0 ≤ (((⟨3, 6, RollOperation.NO_OPERATION, 0⟩ : DiceRoll).die_type :
      Int)) ∧
    0 ≤ (((⟨3, 6, RollOperation.NO_OPERATION, 0⟩ : DiceRoll).operand :
      Int)) ∧
    process_dice "-3d6".toList = none ∧
    process_dice "3d6+-2".toList = none ∧
    process_dice "0d0.+0".toList =
      some ⟨0, 0, RollOperation.INDV_ADD, 0⟩ :=
  C10_nonnegative_fields "3d6".toList
    ⟨3, 6, RollOperation.NO_OPERATION, 0⟩ rfl

end DiceRollPy
